import Mathlib

/-!
Verification of the Site-cleaner bot's text-processing core (src/app.py).

Strings from the Python source are modelled as lists of characters
(List Char); byte strings are modelled as the decoded text they carry.
Python regular expressions are embedded as executable backtracking
matchers over List Char whose success lists are ordered by the regex
engine's backtracking priority (greedy quantifiers try longer matches
first, alternation tries the left branch first), so that the head of the
success list is exactly the match Python's re engine produces.
Character classes are modelled over ASCII, matching the ASCII-only
character classes used by the source's regexes and its digit handling.
-/

set_option maxRecDepth 10000

/-- Whitespace characters stripped by Python's str.strip (ASCII range). -/
def isSpaceChar (c : Char) : Bool :=
  c = ' ' || c = '\t' || c = '\n' || c = '\x0d' || c = '\x0b' || c = '\x0c'

/-- Removal of trailing characters satisfying p (right-hand side of str.strip). -/
def rstripP (p : Char → Bool) : List Char → List Char
  | [] => []
  | c :: rest =>
    let r := rstripP p rest
    if r = [] ∧ p c then [] else c :: r

/-- Python str.strip: drop leading and trailing whitespace. -/
def pyStrip (l : List Char) : List Char :=
  rstripP isSpaceChar (l.dropWhile isSpaceChar)

/-- Characters allowed after the first one in a URI scheme,
the class [a-zA-Z0-9+\-.] of the regex in normalize_input_url. -/
def isSchemeRestChar (c : Char) : Bool :=
  c.isAlpha || c.isDigit || c = '+' || c = '-' || c = '.'

/-- Match of the anchored regex [a-zA-Z][a-zA-Z0-9+\-.]*:// at the start of
the input, as tested by re.match in normalize_input_url.  The starred class
contains no colon, so the match succeeds exactly when the maximal run of
scheme characters after the leading letter is followed by the literal ://. -/
def schemeMatch : List Char → Bool
  | [] => false
  | c :: rest => c.isAlpha && (rest.dropWhile isSchemeRestChar).take 3 == [':', '/', '/']

/-- Embedding of normalize_input_url (src/app.py lines 103-109): strip
whitespace; empty input maps to empty output; prepend https:// when no
scheme:// prefix is present. -/
def normalize_input_url (u : List Char) : List Char :=
  let u := pyStrip u
  if u = [] then []
  else if schemeMatch u then u
  else "https://".toList ++ u

/-- Removal of the tab, carriage-return and line-feed characters that
urllib.parse strips from a URL before splitting it. -/
def removeUnsafeChars (u : List Char) : List Char :=
  u.filter (fun c => !(c = '\t' || c = '\x0d' || c = '\n'))

/-- Scheme characters accepted by urllib.parse when splitting off a scheme. -/
def isUrllibSchemeChar (c : Char) : Bool :=
  c.isAlpha || c.isDigit || c = '+' || c = '-' || c = '.'

/-- Removal of a leading scheme: part as done by urllib.parse.urlsplit:
if the text before the first colon is nonempty, starts with a letter and
consists of scheme characters, drop it together with the colon. -/
def splitScheme (u : List Char) : List Char :=
  let pre := u.takeWhile (fun c => c ≠ ':')
  if pre.length < u.length ∧ pre ≠ [] ∧
      (pre.head?.getD ' ').isAlpha ∧ pre.all isUrllibSchemeChar then
    u.drop (pre.length + 1)
  else u

/-- Netloc extraction of urllib.parse.urlsplit: after scheme removal, if the
rest starts with //, the netloc is everything up to the first /, ? or #. -/
def netlocOf (u : List Char) : List Char :=
  let u := splitScheme (removeUnsafeChars u)
  if u.take 2 = ['/', '/'] then
    (u.drop 2).takeWhile (fun c => c ≠ '/' ∧ c ≠ '?' ∧ c ≠ '#')
  else []

/-- Suffix of l after the last occurrence of a (str.rpartition), or l itself
when a does not occur. -/
def afterLast (a : Char) (l : List Char) : List Char :=
  (l.reverse.takeWhile (fun c => c ≠ a)).reverse

/-- Hostname of a URL as computed by urllib.parse's hostname property:
the part of the netloc after the last @, up to the first colon (or the
bracketed part for IPv6 literals), lowercased.  The empty list plays the
role of Python's None / empty hostname. -/
def hostnameOf (u : List Char) : List Char :=
  let hostinfo := afterLast '@' (netlocOf u)
  let host :=
    if '[' ∈ hostinfo then
      ((hostinfo.dropWhile (fun c => c ≠ '[')).drop 1).takeWhile (fun c => c ≠ ']')
    else hostinfo.takeWhile (fun c => c ≠ ':')
  host.map Char.toLower

/-- Match of the anchored regex (\d{1,3}\.){3}\d{1,3} against the whole
hostname (to_apex_site line 115): four dot-separated groups of one to
three digits and nothing else. -/
def ipv4_match (h : List Char) : Bool :=
  let parts := h.splitOn '.'
  parts.length = 4 ∧ parts.all (fun p => 1 ≤ p.length ∧ p.length ≤ 3 ∧ p.all Char.isDigit)

/-- Result triple of a public-suffix decomposition. -/
structure TldParts where
  subdomain : List Char
  domain : List Char
  tldsuffix : List Char
deriving DecidableEq

/-- Dot-joined concatenation of labels (inverse of splitting on dots). -/
def joinDots : List (List Char) → List Char
  | [] => []
  | [x] => x
  | x :: xs => x ++ '.' :: joinDots xs

/-- Length (in labels) of the longest public suffix of labels listed in psl,
searching from the whole label list downwards; 0 when none matches. -/
def findSuffixLen (psl : List (List Char)) (labels : List (List Char)) : Nat → Nat
  | 0 => 0
  | k + 1 =>
    if joinDots (labels.drop (labels.length - (k + 1))) ∈ psl then k + 1
    else findSuffixLen psl labels k

/-- Modelled from the spec: the public-suffix decomposition performed by the
external tldextract library, which is not part of src/; the spec treats it
as an injected capability suffixLookup(hostname) -> (subdomain, domain,
suffix) backed by a static public-suffix table, here the parameter psl.
The hostname's labels are split on dots, the longest suffix of labels whose
dot-joined form is in the table is the public suffix, the label before it is
the registrable domain and the remaining labels form the subdomain; when no
suffix matches, the suffix is empty and the last label is the domain. -/
def tld_extract (psl : List (List Char)) (host : List Char) : TldParts :=
  let labels := host.splitOn '.'
  let k := findSuffixLen psl labels labels.length
  if k = 0 then
    ⟨joinDots labels.dropLast, labels.getLast?.getD [], []⟩
  else
    let rest := labels.take (labels.length - k)
    ⟨joinDots rest.dropLast, rest.getLast?.getD [], joinDots (labels.drop (labels.length - k))⟩

/-- Embedding of to_apex_site (src/app.py lines 111-120): normalize, parse
the hostname, keep IPv4 literals and localhost unchanged, otherwise reduce
to registrable-domain.suffix when the public-suffix decomposition yields
both parts, falling back to the raw hostname; prefix the result with
https://. -/
def to_apex_site (psl : List (List Char)) (u : List Char) : List Char :=
  let u := normalize_input_url u
  let host := hostnameOf u
  let site :=
    if ipv4_match host ∨ host = "localhost".toList then host
    else
      let ext := tld_extract psl host
      if ext.domain ≠ [] ∧ ext.tldsuffix ≠ [] then ext.domain ++ '.' :: ext.tldsuffix
      else host
  "https://".toList ++ site

/-- Embedding of to_host_site (src/app.py lines 122-128): normalize, parse
the hostname, return the empty string when there is none, otherwise the
hostname prefixed with https://. -/
def to_host_site (u : List Char) : List Char :=
  let u := normalize_input_url u
  let host := hostnameOf u
  if host = [] then []
  else "https://".toList ++ host

/-- Backtracking matcher type: from an input, the list of remainders of all
possible matches, ordered by the regex engine's backtracking priority. -/
def RxM : Type := List Char → List (List Char)

/-- Matcher for a single character satisfying p (a character class). -/
def rxClass (p : Char → Bool) : RxM := fun s =>
  match s with
  | [] => []
  | c :: rest => if p c then [rest] else []

/-- Matcher for one literal character, case-insensitively (re.IGNORECASE). -/
def rxCh (a : Char) : RxM :=
  rxClass (fun c => c.toLower = a.toLower)

/-- Matcher for a literal string, case-insensitively. -/
def rxLitAux : List Char → RxM
  | [], s => [s]
  | a :: as, s => (rxCh a s).flatMap (rxLitAux as)

/-- Matcher for a literal Lean string, case-insensitively. -/
def rxLit (t : String) : RxM := rxLitAux t.toList

/-- Sequencing of matchers; for each remainder of the first, in priority
order, all remainders of the second. -/
def rxSeq (f g : RxM) : RxM := fun s => (f s).flatMap g

/-- Alternation: the left branch is tried first, as in the re engine. -/
def rxAlt (f g : RxM) : RxM := fun s => f s ++ g s

/-- Greedy option (x?): presence is tried before absence. -/
def rxOpt (f : RxM) : RxM := fun s => f s ++ [s]

/-- Greedy star (x*) with fuel: more repetitions are tried first.  The fuel
is instantiated with the input length; since every atom of the embedded
patterns consumes at least one character, this reproduces the unbounded
star exactly. -/
def rxStar (f : RxM) : Nat → RxM
  | 0 => fun s => [s]
  | fuel + 1 => fun s => (f s).flatMap (rxStar f fuel) ++ [s]

/-- Greedy plus (x+) with fuel. -/
def rxPlus (f : RxM) (fuel : Nat) : RxM := rxSeq f (rxStar f fuel)

/-- Greedy counted repetition x{min,max}: more repetitions are tried first. -/
def rxRep (f : RxM) : Nat → Nat → RxM
  | _, 0 => fun s => [s]
  | 0, max + 1 => fun s => (f s).flatMap (rxRep f 0 max) ++ [s]
  | min + 1, max + 1 => fun s => (f s).flatMap (rxRep f min max)

/-- Embedding of URL_REGEX (src/app.py lines 98-101):
(?:(?:https?://)|(?:www\.))?(?:[A-Za-z0-9-]+\.)+[A-Za-z]{2,}(?::\d{2,5})?(?:/[^\s]*)?
with re.IGNORECASE, as a priority-ordered backtracking matcher. -/
def urlPat (fuel : Nat) : RxM :=
  let alpha := rxClass Char.isAlpha
  let label := rxClass (fun c => c.isAlpha || c.isDigit || c = '-')
  let digit := rxClass Char.isDigit
  let nonspace := rxClass (fun c => !isSpaceChar c)
  let scheme := rxSeq (rxLit "http") (rxSeq (rxOpt (rxLit "s")) (rxLit "://"))
  let pre := rxOpt (rxAlt scheme (rxLit "www."))
  let dottedLabel := rxSeq (rxPlus label fuel) (rxCh '.')
  let hostLabels := rxPlus dottedLabel fuel
  let tld := rxSeq alpha (rxSeq alpha (rxStar alpha fuel))
  let port := rxOpt (rxSeq (rxCh ':') (rxRep digit 2 5))
  let path := rxOpt (rxSeq (rxCh '/') (rxStar nonspace fuel))
  rxSeq pre (rxSeq hostLabels (rxSeq tld (rxSeq port path)))

/-- Leftmost match attempt of URL_REGEX at the start of s: the remainder of
the first match in backtracking priority order, if any. -/
def urlMatchAt (s : List Char) : Option (List Char) :=
  (urlPat s.length s).head?

/-- Fueled scan of re.findall for URL_REGEX: at each position try a match;
on success emit the matched prefix and continue after it, otherwise advance
one character.  Every match consumes at least two characters, so fuel equal
to the input length suffices. -/
def urlFindAllFuel : Nat → List Char → List (List Char)
  | 0, _ => []
  | _, [] => []
  | fuel + 1, s@(_ :: rest) =>
    match urlMatchAt s with
    | some r => s.take (s.length - r.length) :: urlFindAllFuel fuel r
    | none => urlFindAllFuel fuel rest

/-- Embedding of re.findall over URL_REGEX. -/
def urlFindAll (s : List Char) : List (List Char) :=
  urlFindAllFuel s.length s

/-- Loop body of extract_urls: strip each match and keep the nonempty ones
not seen before, remembering them in seen. -/
def extract_urls_aux (seen : List (List Char)) : List (List Char) → List (List Char)
  | [] => []
  | m :: ms =>
    let s := pyStrip m
    if s ≠ [] ∧ s ∉ seen then s :: extract_urls_aux (s :: seen) ms
    else extract_urls_aux seen ms

/-- Embedding of extract_urls (src/app.py lines 130-138): regex scan, strip,
drop empties, deduplicate preserving first occurrence. -/
def extract_urls (t : List Char) : List (List Char) :=
  extract_urls_aux [] (urlFindAll t)

/-- Site of one candidate URL for the given mode, as chosen inside
clean_sites_list_from_text. -/
def siteFor (psl : List (List Char)) (mode : String) (u : List Char) : List Char :=
  if mode = "apex" then to_apex_site psl u else to_host_site u

/-- Loop body of clean_sites_list_from_text: keep each nonempty site not
seen before. -/
def clean_sites_aux (psl : List (List Char)) (mode : String)
    (seen : List (List Char)) : List (List Char) → List (List Char)
  | [] => []
  | u :: us =>
    let site := siteFor psl mode u
    if site ≠ [] ∧ site ∉ seen then site :: clean_sites_aux psl mode (site :: seen) us
    else clean_sites_aux psl mode seen us

/-- Embedding of clean_sites_list_from_text (src/app.py lines 140-147). -/
def clean_sites_list_from_text (psl : List (List Char)) (t : List Char)
    (mode : String) : List (List Char) :=
  clean_sites_aux psl mode [] (extract_urls t)

/-- Separator characters allowed between digits by CC_CANDIDATE_RE's
class [ -]. -/
def isSepChar (c : Char) : Bool := c = ' ' || c = '-'

/-- Greedy consumption of up to k repetitions of \d[ -]* (the repeated group
of CC_CANDIDATE_RE): returns the repetition count, the consumed prefix and
the remainder.  Backtracking cannot increase the count, because the
separator class contains no digit, so maximal munch is exact here. -/
def ccMunch : Nat → List Char → Nat × List Char × List Char
  | 0, s => (0, [], s)
  | _ + 1, [] => (0, [], [])
  | k + 1, c :: rest =>
    if c.isDigit then
      let seps := rest.takeWhile isSepChar
      let next := ccMunch k (rest.dropWhile isSepChar)
      (next.1 + 1, c :: (seps ++ next.2.1), next.2.2)
    else (0, [], c :: rest)

/-- Match attempt of CC_CANDIDATE_RE, (?:\d[ -]*){13,19}, at the start of s:
greedily take up to 19 repetitions and succeed when at least 13 were found,
returning the matched prefix and the remainder. -/
def ccMatch (s : List Char) : Option (List Char × List Char) :=
  let r := ccMunch 19 s
  if 13 ≤ r.1 then some r.2 else none

/-- Fueled scan of re.findall for CC_CANDIDATE_RE; every successful match
consumes at least 13 characters, so fuel equal to the input length
suffices. -/
def ccFindAllFuel : Nat → List Char → List (List Char)
  | 0, _ => []
  | _, [] => []
  | fuel + 1, s@(_ :: rest) =>
    match ccMatch s with
    | some (m, r) => m :: ccFindAllFuel fuel r
    | none => ccFindAllFuel fuel rest

/-- Embedding of re.findall over CC_CANDIDATE_RE (src/app.py line 152). -/
def ccFindAll (s : List Char) : List (List Char) :=
  ccFindAllFuel s.length s

/-- Embedding of digits_only (src/app.py lines 154-155): remove every
character that is not an ASCII digit. -/
def digits_only (s : List Char) : List Char :=
  s.filter Char.isDigit

/-- Running total of luhn_check's loop over the reversed digit string,
starting at index i: digits at odd indices are doubled and reduced by 9
when the double exceeds 9. -/
def luhnTotal : Nat → List Char → Nat
  | _, [] => 0
  | i, c :: rest =>
    let d := c.toNat - 48
    let d := if i % 2 = 1 then (if d * 2 > 9 then d * 2 - 9 else d * 2) else d
    d + luhnTotal (i + 1) rest

/-- Embedding of luhn_check (src/app.py lines 157-167): the checksum over
the reversed digit string must be divisible by 10. -/
def luhn_check (card_number : List Char) : Bool :=
  luhnTotal 0 card_number.reverse % 10 == 0

/-- Numeric value of the first k characters of a digit string, as Python's
int(n[:k]) computes it on digit-only strings. -/
def prefVal (k : Nat) (n : List Char) : Nat :=
  (n.take k).foldl (fun a c => a * 10 + (c.toNat - 48)) 0

/-- Local value two of detect_card_type: int(n[:2]) when the length allows,
else 0. -/
def ccTwo (n : List Char) : Nat := if 2 ≤ n.length then prefVal 2 n else 0

/-- Local value three of detect_card_type. -/
def ccThree (n : List Char) : Nat := if 3 ≤ n.length then prefVal 3 n else 0

/-- Local value four of detect_card_type. -/
def ccFour (n : List Char) : Nat := if 4 ≤ n.length then prefVal 4 n else 0

/-- Local value six of detect_card_type. -/
def ccSix (n : List Char) : Nat := if 6 ≤ n.length then prefVal 6 n else 0

/-- Embedding of detect_card_type (src/app.py lines 169-191): the ordered
rule table over digit length and leading digits, first match wins, Unknown
as fallback. -/
def detect_card_type (n : List Char) : String :=
  let ln := n.length
  if (ln = 13 ∨ ln = 16 ∨ ln = 19) ∧ n.take 1 = ['4'] then "Visa"
  else if ln = 15 ∧ (n.take 2 = ['3', '4'] ∨ n.take 2 = ['3', '7']) then "American Express"
  else if ln = 16 ∧ ((51 ≤ ccTwo n ∧ ccTwo n ≤ 55) ∨ (2221 ≤ prefVal 4 n ∧ prefVal 4 n ≤ 2720)) then "MasterCard"
  else if (ln = 16 ∨ ln = 19) ∧ (n.take 4 = ['6', '0', '1', '1'] ∨ n.take 2 = ['6', '5'] ∨
      (644 ≤ ccThree n ∧ ccThree n ≤ 649) ∨ (622126 ≤ ccSix n ∧ ccSix n ≤ 622925)) then "Discover"
  else if (16 ≤ ln ∧ ln ≤ 19) ∧ (3528 ≤ ccThree n ∧ ccThree n ≤ 3589) then "JCB"
  else if ln = 14 ∧ ((300 ≤ ccThree n ∧ ccThree n ≤ 305) ∨ n.take 2 = ['3', '6'] ∨ n.take 2 = ['3', '8']) then "Diners Club"
  else if (12 ≤ ln ∧ ln ≤ 19) ∧ (n.take 2 = ['5', '0'] ∨ n.take 2 = ['5', '6'] ∨
      n.take 2 = ['5', '7'] ∨ n.take 2 = ['5', '8'] ∨ n.take 1 = ['6']) then "Maestro/Other"
  else "Unknown"

/-- One accepted card: its digit string and its classified type. -/
structure CardEntry where
  number : List Char
  ctype : String
deriving DecidableEq

/-- Loop body of extract_credit_cards_from_text: for each regex match, strip
non-digits, discard lengths outside [13, 19], skip digit strings already
accepted, and accept those passing the Luhn check. -/
def extractCCAux (seen : List (List Char)) : List (List Char) → List CardEntry
  | [] => []
  | m :: ms =>
    let digits := digits_only m
    if digits.length < 13 ∨ 19 < digits.length then extractCCAux seen ms
    else if digits ∈ seen then extractCCAux seen ms
    else if luhn_check digits then
      ⟨digits, detect_card_type digits⟩ :: extractCCAux (digits :: seen) ms
    else extractCCAux seen ms

/-- Embedding of extract_credit_cards_from_text (src/app.py lines 193-206). -/
def extract_credit_cards_from_text (t : List Char) : List CardEntry :=
  extractCCAux [] (ccFindAll t)

/-- Configured limit MAX_MERGE_FILES (src/app.py line 89). -/
def MAX_MERGE_FILES : Nat := 30

/-- Configured limit MAX_TOTAL_MERGE_BYTES (src/app.py line 90). -/
def MAX_TOTAL_MERGE_BYTES : Nat := 25 * 1024 * 1024

/-- Configured limit MAX_SINGLE_FILE_BYTES (src/app.py line 91). -/
def MAX_SINGLE_FILE_BYTES : Nat := 10 * 1024 * 1024

/-- Configured limit MAX_PENDING_TOTAL_BYTES (src/app.py line 93). -/
def MAX_PENDING_TOTAL_BYTES : Nat := 25 * 1024 * 1024

/-- Default per-chat mode (src/app.py line 43). -/
def DEFAULT_MODE : String := "apex"

/-- UTF-8 encoded length of one character, as len(c.encode("utf-8")). -/
def utf8Bytes (c : Char) : Nat :=
  if c.toNat < 0x80 then 1
  else if c.toNat < 0x800 then 2
  else if c.toNat < 0x10000 then 3
  else 4

/-- UTF-8 encoded byte length of a text, as len(t.encode("utf-8")). -/
def utf8Len (t : List Char) : Nat := (t.map utf8Bytes).sum

/-- Total UTF-8 byte size of a list of stored texts, the sum computed by
handle_text over the pending texts. -/
def textsBytes (ts : List (List Char)) : Nat := (ts.map utf8Len).sum

/-- Embedding of "\n".join over a list of text parts. -/
def joinNL : List (List Char) → List Char
  | [] => []
  | [x] => x
  | x :: xs => x ++ '\n' :: joinNL xs

/-- Embedding of splitext as used by the filename helpers: split a name
into base and extension at the last dot, with no extension when every
character before that dot is itself a dot.  (The source imports splitext
from urllib.parse, which modern CPython does not export; the os.path
semantics modelled here is the evident intent.) -/
def splitext (name : List Char) : List Char × List Char :=
  let pre := (name.reverse.dropWhile (fun c => c ≠ '.')).reverse
  if pre = [] then (name, [])
  else if pre.all (fun c => c = '.') then (name, [])
  else (pre.dropLast, '.' :: name.drop pre.length)

/-- Embedding of cleaned_filename_for (src/app.py lines 211-217). -/
def cleaned_filename_for (original_name : List Char) (pre : List Char) : List Char :=
  if original_name = [] ∨ '.' ∉ original_name then pre ++ "urls.txt".toList
  else
    let be := splitext original_name
    let ext := if be.2 = [] then ".txt".toList else be.2
    let safe_base := if pyStrip be.1 = [] then "file".toList else pyStrip be.1
    pre ++ safe_base ++ ext

/-- Embedding of merged_filename_for (src/app.py lines 219-224). -/
def merged_filename_for (first_filename : List Char) : List Char :=
  if first_filename ≠ [] then
    let base := (splitext first_filename).1
    let base := if pyStrip base = [] then "files".toList else pyStrip base
    "merged_".toList ++ base ++ "_cleaned.txt".toList
  else "merged_files_cleaned.txt".toList

/-- Embedding of merged_cards_filename_for (src/app.py lines 226-231). -/
def merged_cards_filename_for (first_filename : List Char) : List Char :=
  if first_filename ≠ [] then
    let base := (splitext first_filename).1
    let base := if pyStrip base = [] then "files".toList else pyStrip base
    "merged_cards_".toList ++ base ++ "_cleaned.txt".toList
  else "merged_cards_files_cleaned.txt".toList

/-- Stored reference to an uploaded file: Telegram file id (abstracted to a
number), declared name and declared size. -/
structure FileMeta where
  file_id : Nat
  file_name : List Char
  file_size : Nat
deriving DecidableEq

/-- Merge bucket of one chat: collected file references and the running
declared-size total kept by _add_merge_file. -/
structure MergeBucket where
  files : List FileMeta
  total_bytes : Nat
deriving DecidableEq

/-- Per-chat session state: the mode entry (none when the chat never set a
mode; _get_mode then reads DEFAULT_MODE), the pending text and file buckets,
and the merge bucket (none when no merge session is active, which is what
_is_merging tests).  An absent pending entry and an empty one are
indistinguishable to every reader, so pending is modelled by its lists. -/
structure ChatState where
  mode : Option String
  pendingTexts : List (List Char)
  pendingFiles : List FileMeta
  merge : Option MergeBucket
deriving DecidableEq

/-- Fresh session state of a chat that has not interacted yet. -/
def initialState : ChatState := ⟨none, [], [], none⟩

/-- Observable output of one handler run: plain replies and document
uploads with filename, file content and caption. -/
inductive BotEvent where
  | reply (msg : String)
  | document (filename : List Char) (content : List Char) (caption : String)
deriving DecidableEq

/-- Line-oriented artifact content: the lines joined by newlines plus a
trailing newline, as built for reply_document. -/
def linesContent (ls : List (List Char)) : List Char :=
  joinNL ls ++ ['\n']

/-- Output line of one card: Type:digits. -/
def cardLine (c : CardEntry) : List Char :=
  c.ctype.toList ++ ':' :: c.number

/-- Embedding of handle_text (src/app.py lines 490-505): in merge mode only
instruct; when the stored pending texts already exceed the cap report the
limit; otherwise append the new text to the pending texts. -/
def handle_text (st : ChatState) (txt : List Char) : ChatState × BotEvent :=
  if st.merge.isSome then
    (st, .reply "You're in merge mode. Upload `.txt` files and use `/done` to process merged output.")
  else if textsBytes st.pendingTexts > MAX_PENDING_TOTAL_BYTES then
    (st, .reply "Pending text storage limit reached. Please send `/clean` or `/clear_pending`.")
  else
    ({ st with pendingTexts := st.pendingTexts ++ [txt] },
     .reply "Saved your text. Send `/clean` when you're ready to process all stored items.")

/-- First nonempty declared file name in a bucket, as the first_filename
loops compute it; empty when there is none. -/
def firstFilename (files : List FileMeta) : List Char :=
  ((files.filter (fun f => f.file_name ≠ [])).head?.map FileMeta.file_name).getD []

/-- Embedding of done_cmd (src/app.py lines 350-412).  The transport's
get_file/download step is the injected capability fetch, returning the
decoded text of a stored file or none for a failed download. -/
def done_cmd (fetch : Nat → Option (List Char)) (psl : List (List Char))
    (st : ChatState) : ChatState × List BotEvent :=
  match st.merge with
  | none => (st, [.reply "No active merge session. Start one with `/merge`."])
  | some mb =>
    if mb.files = [] then
      ({ st with merge := none }, [.reply "No files were uploaded. Merge cancelled."])
    else if (mb.files.map FileMeta.file_size).sum > MAX_TOTAL_MERGE_BYTES then
      ({ st with merge := none }, [.reply "Total uploaded files exceed allowed size. Merge cancelled."])
    else
      let mode := st.mode.getD DEFAULT_MODE
      let merged_texts := mb.files.filterMap (fun f => fetch f.file_id)
      let first := firstFilename mb.files
      if merged_texts = [] then
        ({ st with merge := none }, [.reply "Couldn't download any files. Merge cancelled."])
      else
        let combined := joinNL merged_texts
        let sites := clean_sites_list_from_text psl combined mode
        let cards := extract_credit_cards_from_text combined
        let ev1 : List BotEvent :=
          if sites ≠ [] then
            [.document (merged_filename_for first) (linesContent sites)
              ("✅ Merged and extracted " ++ toString sites.length ++ " site(s) in *" ++ mode.toUpper ++ "* mode.")]
          else []
        let ev2 : List BotEvent :=
          if cards ≠ [] then
            [.document (merged_cards_filename_for first) (linesContent (cards.map cardLine))
              ("🔒 Extracted " ++ toString cards.length ++ " validated credit card(s). Keep them secure.")]
          else []
        let evs := ev1 ++ ev2 ++
          (if ev1 = [] ∧ ev2 = [] then [.reply "No site URLs or credit cards found in merged files."] else [])
        ({ st with merge := none }, evs)

/-- Embedding of clean_cmd (src/app.py lines 417-485).  With no pending
items it only reports; otherwise it downloads what it can, concatenates
files then texts, runs both pipelines, sends the nonempty artifacts (or the
nothing-found reply) and clears the pending bucket. -/
def clean_cmd (fetch : Nat → Option (List Char)) (psl : List (List Char))
    (st : ChatState) : ChatState × List BotEvent :=
  let texts := st.pendingTexts
  let files := st.pendingFiles
  if texts = [] ∧ files = [] then
    (st, [.reply "No pending items to clean. Upload text or files first."])
  else
    let mode := st.mode.getD DEFAULT_MODE
    let downloaded := files.filterMap (fun f => fetch f.file_id)
    let first := firstFilename files
    let combined := joinNL (downloaded ++ texts)
    let sites := clean_sites_list_from_text psl combined mode
    let cards := extract_credit_cards_from_text combined
    let ev1 : List BotEvent :=
      if sites ≠ [] then
        let out_filename :=
          if files.length = 1 ∧ texts = [] then
            cleaned_filename_for ((files.head?.map FileMeta.file_name).getD "urls.txt".toList) "cleaned_".toList
          else if first ≠ [] then merged_filename_for first else "urls.txt".toList
        [.document out_filename (linesContent sites)
          ("✅ Extracted " ++ toString sites.length ++ " site(s) in *" ++ mode.toUpper ++ "* mode.")]
      else []
    let ev2 : List BotEvent :=
      if cards ≠ [] then
        let cards_filename :=
          if files.length = 1 ∧ texts = [] then
            "cards_".toList ++ ((files.head?.map FileMeta.file_name).getD "file.txt".toList)
          else if first ≠ [] then merged_cards_filename_for first else "cards.txt".toList
        [.document cards_filename (linesContent (cards.map cardLine))
          ("🔒 Extracted " ++ toString cards.length ++ " validated credit card(s). Keep them secure.")]
      else []
    let evs := ev1 ++ ev2 ++
      (if ev1 = [] ∧ ev2 = [] then [.reply "No valid URLs or credit card numbers found in your pending items."] else [])
    ({ st with pendingTexts := [], pendingFiles := [] }, evs)

/-- Keep-first deduplication with an explicit seen accumulator, the shape of
every seen-set loop in the source. -/
def firstOccurAux {α : Type} [DecidableEq α] (seen : List α) : List α → List α
  | [] => []
  | a :: l =>
    if a ∈ seen then firstOccurAux seen l
    else a :: firstOccurAux (a :: seen) l

/-- Keep-first deduplication: retain exactly the first occurrence of every
element, in order of first occurrence. -/
def firstOccur {α : Type} [DecidableEq α] (l : List α) : List α :=
  firstOccurAux [] l

theorem mem_firstOccurAux_not_seen {α : Type} [DecidableEq α] {seen l : List α} {x : α}
    (h : x ∈ firstOccurAux seen l) : x ∉ seen := by
  induction l generalizing seen with
  | nil => simp [firstOccurAux] at h
  | cons a l ih =>
    by_cases ha : a ∈ seen
    · rw [firstOccurAux, if_pos ha] at h
      exact ih h
    · rw [firstOccurAux, if_neg ha] at h
      rcases List.mem_cons.mp h with rfl | h
      · exact ha
      · intro hx
        exact ih h (List.mem_cons_of_mem _ hx)

theorem firstOccurAux_nodup {α : Type} [DecidableEq α] (seen l : List α) :
    (firstOccurAux seen l).Nodup := by
  induction l generalizing seen with
  | nil => simp [firstOccurAux]
  | cons a l ih =>
    by_cases ha : a ∈ seen
    · rw [firstOccurAux, if_pos ha]; exact ih seen
    · rw [firstOccurAux, if_neg ha]
      exact List.nodup_cons.mpr
        ⟨fun hmem => (mem_firstOccurAux_not_seen hmem) (List.mem_cons_self a seen), ih _⟩

theorem firstOccurAux_sublist {α : Type} [DecidableEq α] (seen l : List α) :
    List.Sublist (firstOccurAux seen l) l := by
  induction l generalizing seen with
  | nil => simp [firstOccurAux]
  | cons a l ih =>
    by_cases ha : a ∈ seen
    · rw [firstOccurAux, if_pos ha]; exact (ih seen).cons _
    · rw [firstOccurAux, if_neg ha]; exact (ih _).cons₂ _

theorem mem_firstOccurAux_iff {α : Type} [DecidableEq α] (seen l : List α) (x : α) :
    x ∈ firstOccurAux seen l ↔ x ∈ l ∧ x ∉ seen := by
  induction l generalizing seen with
  | nil => simp [firstOccurAux]
  | cons a l ih =>
    by_cases ha : a ∈ seen
    · rw [firstOccurAux, if_pos ha, ih]
      constructor
      · exact fun ⟨h1, h2⟩ => ⟨List.mem_cons_of_mem _ h1, h2⟩
      · rintro ⟨h1, h2⟩
        rcases List.mem_cons.mp h1 with rfl | h1
        · exact absurd ha h2
        · exact ⟨h1, h2⟩
    · rw [firstOccurAux, if_neg ha]
      by_cases hxa : x = a
      · subst hxa
        simp [ha]
      · simp only [List.mem_cons, hxa, false_or]
        rw [ih]
        constructor
        · exact fun ⟨h1, h2⟩ => ⟨h1, fun hx => h2 (List.mem_cons_of_mem _ hx)⟩
        · exact fun ⟨h1, h2⟩ => ⟨h1, by simp [hxa, h2]⟩

theorem extract_urls_aux_eq (seen ms : List (List Char)) :
    extract_urls_aux seen ms =
      firstOccurAux seen ((ms.map pyStrip).filter (fun s => s ≠ [])) := by
  induction ms generalizing seen with
  | nil => rfl
  | cons m ms ih =>
    simp only [extract_urls_aux, List.map_cons, List.filter_cons]
    by_cases h1 : pyStrip m = []
    · simp [h1, ih]
    · by_cases h2 : pyStrip m ∈ seen
      · simp [h1, h2, ih, firstOccurAux]
      · simp [h1, h2, ih, firstOccurAux]

theorem clean_sites_aux_eq (psl : List (List Char)) (mode : String)
    (seen us : List (List Char)) :
    clean_sites_aux psl mode seen us =
      firstOccurAux seen ((us.map (siteFor psl mode)).filter (fun s => s ≠ [])) := by
  induction us generalizing seen with
  | nil => rfl
  | cons u us ih =>
    simp only [clean_sites_aux, List.map_cons, List.filter_cons]
    by_cases h1 : siteFor psl mode u = []
    · simp [h1, ih]
    · by_cases h2 : siteFor psl mode u ∈ seen
      · simp [h1, h2, ih, firstOccurAux]
      · simp [h1, h2, ih, firstOccurAux]

/-- Validity test applied by extract_credit_cards_from_text to a stripped
digit string: length within [13, 19] and Luhn checksum passed. -/
def ccValid (d : List Char) : Bool :=
  (13 ≤ d.length && d.length ≤ 19) && luhn_check d

theorem extractCCAux_map_number (seen ms : List (List Char)) :
    (extractCCAux seen ms).map CardEntry.number =
      firstOccurAux seen ((ms.map digits_only).filter ccValid) := by
  induction ms generalizing seen with
  | nil => rfl
  | cons m ms ih =>
    simp only [extractCCAux, List.map_cons, List.filter_cons]
    by_cases hlen : (digits_only m).length < 13 ∨ 19 < (digits_only m).length
    · have hv : ccValid (digits_only m) = false := by
        unfold ccValid
        rcases hlen with h | h <;> simp [h, Nat.not_le.mpr h]
      simp [hlen, hv, ih]
    · have hlen' : 13 ≤ (digits_only m).length ∧ (digits_only m).length ≤ 19 := by omega
      by_cases hseen : digits_only m ∈ seen
      · by_cases hluhn : luhn_check (digits_only m)
        · have hv : ccValid (digits_only m) = true := by
            unfold ccValid; simp [hlen'.1, hlen'.2, hluhn]
          simp [hlen, hseen, hv, ih, firstOccurAux]
        · have hv : ccValid (digits_only m) = false := by
            unfold ccValid; simp [hluhn]
          simp [hlen, hseen, hv, ih]
      · by_cases hluhn : luhn_check (digits_only m)
        · have hv : ccValid (digits_only m) = true := by
            unfold ccValid; simp [hlen'.1, hlen'.2, hluhn]
          simp [hlen, hseen, hluhn, hv, ih, firstOccurAux]
        · have hv : ccValid (digits_only m) = false := by
            unfold ccValid; simp [hluhn]
          simp [hlen, hseen, hluhn, hv, ih]

theorem extractCCAux_luhn {seen ms : List (List Char)} {e : CardEntry}
    (h : e ∈ extractCCAux seen ms) : luhn_check e.number = true := by
  induction ms generalizing seen with
  | nil => simp [extractCCAux] at h
  | cons m ms ih =>
    rw [extractCCAux] at h
    split at h
    · exact ih h
    · split at h
      · exact ih h
      · split at h
        · rcases List.mem_cons.mp h with rfl | h
          · assumption
          · exact ih h
        · exact ih h

theorem extractCCAux_len {seen ms : List (List Char)} {e : CardEntry}
    (h : e ∈ extractCCAux seen ms) :
    13 ≤ e.number.length ∧ e.number.length ≤ 19 := by
  induction ms generalizing seen with
  | nil => simp [extractCCAux] at h
  | cons m ms ih =>
    rw [extractCCAux] at h
    split at h
    · exact ih h
    · rename_i hlen
      split at h
      · exact ih h
      · split at h
        · rcases List.mem_cons.mp h with rfl | h
          · simp only [not_or, Nat.not_lt] at hlen
            exact ⟨hlen.1, hlen.2⟩
          · exact ih h
        · exact ih h

theorem sep_false_of_digit {c : Char} (h : c.isDigit = true) : isSepChar c = false := by
  unfold isSepChar
  have h1 : c ≠ ' ' := by rintro rfl; exact absurd h (by decide)
  have h2 : c ≠ '-' := by rintro rfl; exact absurd h (by decide)
  simp [h1, h2]

theorem ccMunch_digits (s : List Char) (k : Nat) (hd : ∀ c ∈ s, c.isDigit = true)
    (hk : s.length ≤ k) : ccMunch k s = (s.length, s, []) := by
  induction s generalizing k with
  | nil => cases k <;> simp [ccMunch]
  | cons c rest ih =>
    cases k with
    | zero => simp at hk
    | succ k =>
      have hc : c.isDigit = true := hd c (List.mem_cons_self _ _)
      have hrest : rest.takeWhile isSepChar = [] := by
        cases rest with
        | nil => rfl
        | cons x xs =>
          have hx : isSepChar x = false := sep_false_of_digit (hd x (by simp))
          simp [List.takeWhile_cons, hx]
      have hdrop : rest.dropWhile isSepChar = rest := by
        cases rest with
        | nil => rfl
        | cons x xs =>
          have hx : isSepChar x = false := sep_false_of_digit (hd x (by simp))
          simp [List.dropWhile_cons, hx]
      have hih := ih k (fun c hc' => hd c (List.mem_cons_of_mem _ hc'))
        (Nat.le_of_succ_le_succ (by simpa using hk))
      simp [ccMunch, hc, hrest, hdrop, hih, List.length_cons]

theorem ccFindAll_digits (s : List Char) (hd : ∀ c ∈ s, c.isDigit = true)
    (h13 : 13 ≤ s.length) (h19 : s.length ≤ 19) : ccFindAll s = [s] := by
  have hmatch : ccMatch s = some (s, []) := by
    unfold ccMatch
    rw [ccMunch_digits s 19 hd h19]
    simp [h13]
  cases hs : s with
  | nil => rw [hs] at h13; simp at h13
  | cons c rest =>
    rw [hs] at hmatch h13
    unfold ccFindAll
    have hlen : (c :: rest).length = rest.length + 1 := rfl
    rw [hlen]
    rw [ccFindAllFuel, hmatch]
    cases rest.length <;> rfl

theorem luhn_check_eq (s : List Char) : luhn_check s = true ↔ luhnTotal 0 s.reverse % 10 = 0 := by
  unfold luhn_check
  exact beq_iff_eq

/-- Claim C1: the card extractor accepts a digit string exactly when it
passes the Luhn checksum.  Every emitted entry's digit string has Luhn
total divisible by 10, and conversely every ASCII digit string of length
13 to 19 whose Luhn total is divisible by 10 is accepted when fed as the
input text. -/
theorem cards_accept_iff_luhn :
    (∀ (t : List Char) (e : CardEntry), e ∈ extract_credit_cards_from_text t →
      luhnTotal 0 e.number.reverse % 10 = 0) ∧
    (∀ s : List Char, (∀ c ∈ s, c.isDigit = true) → 13 ≤ s.length → s.length ≤ 19 →
      luhnTotal 0 s.reverse % 10 = 0 →
      ∃ e ∈ extract_credit_cards_from_text s, e.number = s) := by
  constructor
  · intro t e h
    exact (luhn_check_eq _).mp (extractCCAux_luhn h)
  · intro s hd h13 h19 hluhn
    have hfind : ccFindAll s = [s] := ccFindAll_digits s hd h13 h19
    have hdig : digits_only s = s := by
      unfold digits_only
      exact List.filter_eq_self.mpr hd
    have hnlt : ¬(s.length < 13 ∨ 19 < s.length) := by omega
    have hlc : luhn_check s = true := (luhn_check_eq s).mpr hluhn
    unfold extract_credit_cards_from_text
    rw [hfind]
    simp only [extractCCAux, hdig, hnlt, if_false, List.not_mem_nil, hlc, if_true]
    exact ⟨⟨s, detect_card_type s⟩, by simp, rfl⟩

theorem cards_accept_iff_luhn_witness :
    (luhnTotal 0 ("4111111111111111".toList).reverse % 10 = 0) ∧
    (∃ e ∈ extract_credit_cards_from_text "4111111111111111".toList,
      e.number = "4111111111111111".toList) := by
  have h := cards_accept_iff_luhn.2 "4111111111111111".toList
    (by decide) (by decide) (by decide) (by decide)
  refine ⟨?_, h⟩
  obtain ⟨e, he, hn⟩ := h
  have := cards_accept_iff_luhn.1 _ _ he
  rwa [hn] at this

/-- Claim C2 counterexample: the input text consisting of a single maximal
numeric run of exactly 20 digits (twenty zeros) does cause a card to be
emitted from that run: the regex greedily matches the run's first 19
digits, which satisfy the Luhn checksum and are emitted. -/
theorem card_emitted_from_20_digit_run :
    (extract_credit_cards_from_text (List.replicate 20 '0')).map CardEntry.number
      = [List.replicate 19 '0'] := by decide

/-- Claim C2 (amended): no emitted card's digit string ever has length 12
or 20; every emitted digit string has between 13 and 19 digits, so a 12- or
20-digit run is never emitted in full, though a 20-digit run's 19-digit
prefix (and a 12-digit run joined to nearby digits across separators) can
still produce a card. -/
theorem cards_never_length_12_or_20 (t : List Char) (e : CardEntry)
    (h : e ∈ extract_credit_cards_from_text t) :
    13 ≤ e.number.length ∧ e.number.length ≤ 19 :=
  extractCCAux_len h

theorem cards_never_length_12_or_20_witness :
    13 ≤ (List.replicate 19 '0').length ∧ (List.replicate 19 '0').length ≤ 19 :=
  cards_never_length_12_or_20 (List.replicate 20 '0')
    ⟨List.replicate 19 '0', "Unknown"⟩ (by decide)

theorem ite_mem_of {c : Prop} [Decidable c] {a b : String} {l : List String}
    (ha : a ∈ l) (hb : b ∈ l) : (if c then a else b) ∈ l := by
  split <;> assumption

theorem ite_ne_of {c : Prop} [Decidable c] {a b x : String}
    (ha : a ≠ x) (hb : b ≠ x) : (if c then a else b) ≠ x := by
  split <;> assumption

/-- Claim C4: card-type classification is a total deterministic function of
the digit string: it always returns exactly one of the eight labels (with
Unknown as the fallback), equal inputs give equal results, and the two
reference inputs classify as Visa and American Express. -/
theorem detect_card_type_total_deterministic :
    (∀ n : List Char, detect_card_type n ∈
      ["Visa", "American Express", "MasterCard", "Discover", "JCB",
       "Diners Club", "Maestro/Other", "Unknown"]) ∧
    (∀ a b : List Char, a = b → detect_card_type a = detect_card_type b) ∧
    detect_card_type "4111111111111111".toList = "Visa" ∧
    detect_card_type "378282246310005".toList = "American Express" := by
  refine ⟨?_, ?_, by decide, by decide⟩
  · intro n
    simp only [detect_card_type]
    exact ite_mem_of (by decide) (ite_mem_of (by decide) (ite_mem_of (by decide)
      (ite_mem_of (by decide) (ite_mem_of (by decide) (ite_mem_of (by decide)
      (ite_mem_of (by decide) (by decide)))))))
  · intro a b h
    rw [h]

theorem detect_card_type_total_deterministic_witness :
    detect_card_type "4111111111111111".toList = detect_card_type "4111111111111111".toList :=
  detect_card_type_total_deterministic.2.1 _ _ rfl

theorem digit_toNat_le {c : Char} (h : c.isDigit = true) : c.toNat - 48 ≤ 9 := by
  unfold Char.isDigit at h
  rw [Bool.and_eq_true, decide_eq_true_eq, decide_eq_true_eq] at h
  have h57 : c.val.toNat ≤ 57 := UInt32.toNat_le_of_le (by decide) h.2
  unfold Char.toNat
  omega

theorem ccThree_le_999 (n : List Char) (hd : ∀ c ∈ n, c.isDigit = true) :
    ccThree n ≤ 999 := by
  unfold ccThree
  split
  · rename_i h3
    cases n with
    | nil => simp at h3
    | cons a t =>
      cases t with
      | nil => simp at h3
      | cons b t2 =>
        cases t2 with
        | nil => simp at h3
        | cons c t3 =>
          have ha : a.toNat - 48 ≤ 9 := digit_toNat_le (hd a (by simp))
          have hb : b.toNat - 48 ≤ 9 := digit_toNat_le (hd b (by simp))
          have hc : c.toNat - 48 ≤ 9 := digit_toNat_le (hd c (by simp))
          simp only [prefVal, List.take, List.foldl]
          omega
  · omega

/-- Claim C9: the JCB branch of detect_card_type is unreachable: for every
digit string the value of the first three digits is at most 999, below the
tested range [3528, 3589], so the function never returns JCB. -/
theorem detect_card_type_never_JCB (n : List Char)
    (hd : ∀ c ∈ n, c.isDigit = true) : detect_card_type n ≠ "JCB" := by
  have h3 : ccThree n ≤ 999 := ccThree_le_999 n hd
  have hJ : ¬((16 ≤ n.length ∧ n.length ≤ 19) ∧ 3528 ≤ ccThree n ∧ ccThree n ≤ 3589) := by
    rintro ⟨-, hlo, -⟩
    omega
  simp only [detect_card_type]
  refine ite_ne_of (by decide) (ite_ne_of (by decide) (ite_ne_of (by decide)
    (ite_ne_of (by decide) ?_)))
  rw [if_neg hJ]
  exact ite_ne_of (by decide) (ite_ne_of (by decide) (by decide))

theorem detect_card_type_never_JCB_witness :
    detect_card_type "3530111333300000".toList ≠ "JCB" :=
  detect_card_type_never_JCB "3530111333300000".toList (by decide)

/-- Claim C3: for every input text and mode, the site list of the URL
pipeline and the card list of the card pipeline are each duplicate-free and
keep-first ordered: each equals the keep-first deduplication of the
corresponding scan-order candidate sequence (stripped regex matches for
URLs, valid digit strings for cards). -/
theorem outputs_nodup_first_occurrence (psl : List (List Char)) (t : List Char)
    (mode : String) :
    (clean_sites_list_from_text psl t mode).Nodup ∧
    clean_sites_list_from_text psl t mode =
      firstOccur (((extract_urls t).map (siteFor psl mode)).filter (fun s => s ≠ [])) ∧
    extract_urls t = firstOccur (((urlFindAll t).map pyStrip).filter (fun s => s ≠ [])) ∧
    (extract_credit_cards_from_text t).Nodup ∧
    ((extract_credit_cards_from_text t).map CardEntry.number).Nodup ∧
    (extract_credit_cards_from_text t).map CardEntry.number =
      firstOccur (((ccFindAll t).map digits_only).filter ccValid) := by
  have hsites : clean_sites_list_from_text psl t mode =
      firstOccurAux [] (((extract_urls t).map (siteFor psl mode)).filter (fun s => s ≠ [])) :=
    clean_sites_aux_eq psl mode [] (extract_urls t)
  have hurls : extract_urls t =
      firstOccurAux [] (((urlFindAll t).map pyStrip).filter (fun s => s ≠ [])) :=
    extract_urls_aux_eq [] (urlFindAll t)
  have hcards : (extract_credit_cards_from_text t).map CardEntry.number =
      firstOccurAux [] (((ccFindAll t).map digits_only).filter ccValid) :=
    extractCCAux_map_number [] (ccFindAll t)
  have hcardsNodup : ((extract_credit_cards_from_text t).map CardEntry.number).Nodup := by
    rw [hcards]; exact firstOccurAux_nodup _ _
  refine ⟨?_, hsites, hurls, ?_, hcardsNodup, hcards⟩
  · rw [hsites]; exact firstOccurAux_nodup _ _
  · exact List.Nodup.of_map _ hcardsNodup

theorem dropWhile_dropWhile (p : Char → Bool) (l : List Char) :
    (l.dropWhile p).dropWhile p = l.dropWhile p := by
  induction l with
  | nil => rfl
  | cons c t ih =>
    by_cases hc : p c
    · simp [List.dropWhile_cons, hc, ih]
    · simp [List.dropWhile_cons, hc]

theorem rstripP_idem (p : Char → Bool) (l : List Char) :
    rstripP p (rstripP p l) = rstripP p l := by
  induction l with
  | nil => rfl
  | cons c t ih =>
    rw [rstripP]
    by_cases h : rstripP p t = [] ∧ p c
    · rw [if_pos h]; rfl
    · rw [if_neg h, rstripP, ih, if_neg h]

theorem dropWhile_rstripP (p : Char → Bool) (l : List Char) (h : l.dropWhile p = l) :
    (rstripP p l).dropWhile p = rstripP p l := by
  cases l with
  | nil => rfl
  | cons c t =>
    have hc : p c = false := by
      by_contra hc
      rw [Bool.not_eq_false] at hc
      rw [List.dropWhile_cons, if_pos hc] at h
      have hlen := congrArg List.length h
      have hle := (List.dropWhile_sublist (l := t) p).length_le
      simp at hlen
      omega
    rw [rstripP]
    by_cases h2 : rstripP p t = [] ∧ p c
    · rw [if_pos h2]; rfl
    · rw [if_neg h2]
      simp [List.dropWhile_cons, hc]

theorem rstripP_append (p : Char → Bool) (x y : List Char) (hy : rstripP p y = y)
    (hne : y ≠ []) : rstripP p (x ++ y) = x ++ y := by
  induction x with
  | nil => simpa using hy
  | cons c t ih =>
    rw [List.cons_append, rstripP, ih]
    have hty : t ++ y ≠ [] := by simp [hne]
    rw [if_neg (fun hco => hty hco.1)]

theorem pyStrip_idem (l : List Char) : pyStrip (pyStrip l) = pyStrip l := by
  unfold pyStrip
  rw [dropWhile_rstripP _ _ (dropWhile_dropWhile _ _), rstripP_idem]

theorem schemeMatch_https (x : List Char) :
    schemeMatch ("https://".toList ++ x) = true := by
  show schemeMatch ('h' :: 't' :: 't' :: 'p' :: 's' :: ':' :: '/' :: '/' :: x) = true
  rw [schemeMatch]
  simp [List.dropWhile_cons, show isSchemeRestChar 't' = true from by decide,
    show isSchemeRestChar 'p' = true from by decide,
    show isSchemeRestChar 's' = true from by decide,
    show isSchemeRestChar ':' = false from by decide,
    show ('h').isAlpha = true from by decide]

/-- Claim C7: URL normalization is idempotent: applying
normalize_input_url to its own output returns that output unchanged. -/
theorem normalize_input_url_idempotent (u : List Char) :
    normalize_input_url (normalize_input_url u) = normalize_input_url u := by
  simp only [normalize_input_url]
  by_cases h0 : pyStrip u = []
  · simp [h0, show pyStrip ([] : List Char) = [] from rfl]
  · by_cases hsm : schemeMatch (pyStrip u) = true
    · simp [h0, hsm, pyStrip_idem]
    · have hdw : ("https://".toList ++ pyStrip u).dropWhile isSpaceChar =
          "https://".toList ++ pyStrip u := by
        show (('h' :: ('t' :: 't' :: 'p' :: 's' :: ':' :: '/' :: '/' :: []) ++ pyStrip u) :
            List Char).dropWhile isSpaceChar = _
        rw [List.cons_append, List.dropWhile_cons]
        simp [show isSpaceChar 'h' = false from by decide]
      have hv : pyStrip ("https://".toList ++ pyStrip u) = "https://".toList ++ pyStrip u := by
        rw [pyStrip, hdw]
        exact rstripP_append _ _ _ (rstripP_idem isSpaceChar (u.dropWhile isSpaceChar)) h0
      have hne : ("https://".toList ++ pyStrip u) ≠ [] :=
        List.append_ne_nil_of_left_ne_nil (by decide) _
      rw [if_neg h0, if_neg hsm, hv, if_neg hne, if_pos (schemeMatch_https (pyStrip u))]

theorem tld_extract_nil_domain (psl : List (List Char)) :
    (tld_extract psl []).domain = [] := by
  have hsp : ([] : List Char).splitOn '.' = [[]] := rfl
  unfold tld_extract
  rw [hsp]
  by_cases hp : ([] : List Char) ∈ psl
  · simp [findSuffixLen, joinDots, hp]
  · simp [findSuffixLen, joinDots, hp]

/-- Claim C10: when no hostname can be parsed from the normalized input
(for example the empty string), to_apex_site returns the nonempty literal
https:// while to_host_site returns the empty string, so only host mode
makes hostname-less candidates contribute nothing. -/
theorem hostless_apex_vs_host (psl : List (List Char)) (u : List Char)
    (h : hostnameOf (normalize_input_url u) = []) :
    to_apex_site psl u = "https://".toList ∧ to_host_site u = [] ∧
    "https://".toList ≠ ([] : List Char) := by
  refine ⟨?_, ?_, by decide⟩
  · simp only [to_apex_site]
    rw [h]
    rw [if_neg (by decide : ¬(ipv4_match [] = true ∨ ([] : List Char) = "localhost".toList))]
    rw [if_neg (fun hco => hco.1 (tld_extract_nil_domain psl))]
    simp
  · simp only [to_host_site]
    rw [h]
    simp

theorem hostless_apex_vs_host_witness :
    to_apex_site [] [] = "https://".toList ∧ to_host_site [] = [] ∧
    "https://".toList ≠ ([] : List Char) :=
  hostless_apex_vs_host [] [] (by decide)

theorem digit_toNat_bounds {c : Char} (h : c.isDigit = true) :
    48 ≤ c.toNat ∧ c.toNat ≤ 57 := by
  unfold Char.isDigit at h
  rw [Bool.and_eq_true, decide_eq_true_eq, decide_eq_true_eq] at h
  exact ⟨UInt32.le_toNat_of_le (by decide) h.1, UInt32.toNat_le_of_le (by decide) h.2⟩

theorem digit_ne_low {c : Char} (hd : c.isDigit = true) {d : Char}
    (hlt : d.toNat < 48) : c ≠ d := by
  rintro rfl
  exact absurd (digit_toNat_bounds hd).1 (by omega)

theorem digit_ne_high {c : Char} (hd : c.isDigit = true) {d : Char}
    (hgt : 57 < d.toNat) : c ≠ d := by
  rintro rfl
  exact absurd (digit_toNat_bounds hd).2 (by omega)

theorem not_alpha_of_digit {c : Char} (h : c.isDigit = true) : c.isAlpha = false := by
  have hb := digit_toNat_bounds h
  unfold Char.isAlpha Char.isUpper Char.isLower
  by_contra hb2
  rw [Bool.not_eq_false, Bool.or_eq_true] at hb2
  unfold Char.toNat at hb
  rcases hb2 with h2 | h2 <;>
    rw [Bool.and_eq_true, decide_eq_true_eq, decide_eq_true_eq] at h2
  · have h65 : (65 : Nat) ≤ c.val.toNat := UInt32.le_toNat_of_le (by decide) h2.1
    omega
  · have h97 : (97 : Nat) ≤ c.val.toNat := UInt32.le_toNat_of_le (by decide) h2.1
    omega

theorem not_space_of_digit_or_dot {c : Char} (h : c.isDigit = true ∨ c = '.') :
    isSpaceChar c = false := by
  rcases h with h | rfl
  · unfold isSpaceChar
    simp only [Bool.or_eq_false_iff, decide_eq_false_iff_not]
    exact ⟨⟨⟨⟨⟨digit_ne_low h (by decide), digit_ne_low h (by decide)⟩,
      digit_ne_low h (by decide)⟩, digit_ne_low h (by decide)⟩,
      digit_ne_low h (by decide)⟩, digit_ne_low h (by decide)⟩
  · decide

theorem rstripP_eq_self {p : Char → Bool} {l : List Char}
    (hl : ∀ c ∈ l, p c = false) : rstripP p l = l := by
  induction l with
  | nil => rfl
  | cons c t ih =>
    rw [rstripP, ih (fun x hx => hl x (List.mem_cons_of_mem _ hx))]
    rw [if_neg]
    rintro ⟨-, hpc⟩
    rw [hl c (List.mem_cons_self _ _)] at hpc
    exact absurd hpc (by decide)

theorem pyStrip_eq_self {l : List Char} (hl : ∀ c ∈ l, isSpaceChar c = false) :
    pyStrip l = l := by
  unfold pyStrip
  have hdw : l.dropWhile isSpaceChar = l := by
    cases l with
    | nil => rfl
    | cons c t =>
      rw [List.dropWhile_cons]
      simp [hl c (List.mem_cons_self _ _)]
  rw [hdw]
  exact rstripP_eq_self hl

theorem map_toLower_eq_self {l : List Char}
    (h : ∀ c ∈ l, c.isDigit = true ∨ c = '.') : l.map Char.toLower = l := by
  induction l with
  | nil => rfl
  | cons c t ih =>
    have hc : c.toLower = c := by
      rcases h c (List.mem_cons_self _ _) with hd | rfl
      · have hb := digit_toNat_bounds hd
        unfold Char.toLower
        rw [if_neg (by omega)]
      · decide
    simp [hc, ih (fun x hx => h x (List.mem_cons_of_mem _ hx))]

theorem ipv4_shape {h : List Char} (hi : ipv4_match h = true) :
    (∀ c ∈ h, c.isDigit = true ∨ c = '.') ∧ ∃ a t, h = a :: t ∧ a.isDigit = true := by
  unfold ipv4_match at hi
  rw [decide_eq_true_eq] at hi
  obtain ⟨h4, hall⟩ := hi
  rw [List.all_eq_true] at hall
  have hrec : ['.'].intercalate (h.splitOn '.') = h := List.intercalate_splitOn h '.'
  generalize hgen : h.splitOn '.' = q at h4 hall hrec
  rcases q with - | ⟨p0, - | ⟨p1, - | ⟨p2, - | ⟨p3, - | ⟨p4, rest⟩⟩⟩⟩⟩ <;> simp at h4
  have hp0 := hall p0 (by simp)
  have hp1 := hall p1 (by simp)
  have hp2 := hall p2 (by simp)
  have hp3 := hall p3 (by simp)
  rw [decide_eq_true_eq] at hp0 hp1 hp2 hp3
  have hform : p0 ++ '.' :: (p1 ++ '.' :: (p2 ++ '.' :: p3)) = h := by
    simpa [List.intercalate, List.intersperse] using hrec
  constructor
  · intro c hc
    rw [← hform] at hc
    simp only [List.mem_append, List.mem_cons] at hc
    rw [List.all_eq_true] at hp0 hp1 hp2 hp3
    rcases hc with hc | rfl | hc | rfl | hc | rfl | hc
    · exact Or.inl (hp0.2.2 c hc)
    · exact Or.inr rfl
    · exact Or.inl (hp1.2.2 c hc)
    · exact Or.inr rfl
    · exact Or.inl (hp2.2.2 c hc)
    · exact Or.inr rfl
    · exact Or.inl (hp3.2.2 c hc)
  · cases hp : p0 with
    | nil => rw [hp] at hp0; simp at hp0
    | cons a t0 =>
      refine ⟨a, t0 ++ '.' :: (p1 ++ '.' :: (p2 ++ '.' :: p3)), ?_, ?_⟩
      · rw [← hform, hp]
        rfl
      · rw [List.all_eq_true] at hp0
        exact hp0.2.2 a (by rw [hp]; simp)

theorem splitScheme_https (l : List Char) :
    splitScheme ("https://".toList ++ l) = '/' :: '/' :: l := by
  show splitScheme ('h' :: 't' :: 't' :: 'p' :: 's' :: ':' :: '/' :: '/' :: l) = _
  unfold splitScheme
  have hpre : (('h' :: 't' :: 't' :: 'p' :: 's' :: ':' :: '/' :: '/' :: l) :
      List Char).takeWhile (fun c => c ≠ ':') = ['h', 't', 't', 'p', 's'] := by
    simp [List.takeWhile_cons]
  rw [hpre]
  rw [if_pos ⟨by simp, by simp, by decide, by decide⟩]
  rfl

theorem removeUnsafe_https {l : List Char}
    (hl : ∀ c ∈ l, c.isDigit = true ∨ c = '.') :
    removeUnsafeChars ("https://".toList ++ l) = "https://".toList ++ l := by
  unfold removeUnsafeChars
  rw [List.filter_eq_self]
  intro c hc
  rcases List.mem_append.mp hc with hc | hc
  · have hc' : c ∈ ['h', 't', 't', 'p', 's', ':', '/', '/'] := hc
    simp only [List.mem_cons, List.not_mem_nil, or_false] at hc'
    rcases hc' with rfl | rfl | rfl | rfl | rfl | rfl | rfl | rfl <;> decide
  · rcases hl c hc with hd | rfl
    · simp only [Bool.not_eq_true', Bool.or_eq_false_iff, decide_eq_false_iff_not]
      exact ⟨⟨digit_ne_low hd (by decide), digit_ne_low hd (by decide)⟩,
        digit_ne_low hd (by decide)⟩
    · decide

theorem netlocOf_https {l : List Char}
    (hl : ∀ c ∈ l, c.isDigit = true ∨ c = '.') :
    netlocOf ("https://".toList ++ l) = l := by
  unfold netlocOf
  rw [removeUnsafe_https hl, splitScheme_https]
  dsimp only
  rw [if_pos (show List.take 2 ('/' :: '/' :: l) = ['/', '/'] from rfl)]
  show l.takeWhile _ = l
  rw [List.takeWhile_eq_self_iff]
  intro c hc
  rcases hl c hc with hd | rfl
  · simp only [decide_eq_true_eq]
    exact ⟨digit_ne_low hd (by decide), digit_ne_high hd (by decide),
      digit_ne_low hd (by decide)⟩
  · decide

theorem hostnameOf_https {l : List Char}
    (hl : ∀ c ∈ l, c.isDigit = true ∨ c = '.') :
    hostnameOf ("https://".toList ++ l) = l := by
  unfold hostnameOf
  rw [netlocOf_https hl]
  have hafter : afterLast '@' l = l := by
    unfold afterLast
    rw [List.takeWhile_eq_self_iff.mpr, List.reverse_reverse]
    intro c hc
    rw [List.mem_reverse] at hc
    rcases hl c hc with hd | rfl
    · simp only [decide_eq_true_eq]
      exact digit_ne_high hd (by decide)
    · decide
  rw [hafter]
  dsimp only
  rw [if_neg ?hbr]
  case hbr =>
    intro hbr
    rcases hl '[' hbr with hd | hdot
    · exact absurd hd (by decide)
    · exact absurd hdot (by decide)
  rw [List.takeWhile_eq_self_iff.mpr ?hcol]
  case hcol =>
    intro c hc
    rcases hl c hc with hd | rfl
    · simp only [decide_eq_true_eq]
      exact digit_ne_high hd (by decide)
    · decide
  exact map_toLower_eq_self hl

/-- Claim C8: a candidate hostname that is a dotted-quad IPv4 literal or the
literal localhost passes through apex mode unreduced: the apex Site equals
https:// followed by the hostname unchanged, with no public-suffix
reduction for any suffix table. -/
theorem apex_site_ip_and_localhost (psl : List (List Char)) (h : List Char)
    (hyp : ipv4_match h = true ∨ h = "localhost".toList) :
    to_apex_site psl h = "https://".toList ++ h := by
  rcases hyp with hip | rfl
  · obtain ⟨hchars, a, t, hat, ha⟩ := ipv4_shape hip
    have hns : ∀ c ∈ h, isSpaceChar c = false := fun c hc =>
      not_space_of_digit_or_dot (hchars c hc)
    have hnorm : normalize_input_url h = "https://".toList ++ h := by
      simp only [normalize_input_url]
      rw [pyStrip_eq_self hns]
      rw [if_neg (by rw [hat]; simp)]
      rw [if_neg ?hsm]
      case hsm =>
        rw [hat, schemeMatch]
        simp [not_alpha_of_digit ha]
    simp only [to_apex_site]
    rw [hnorm, hostnameOf_https hchars, if_pos (Or.inl hip)]
  · have hh : hostnameOf (normalize_input_url "localhost".toList) =
        "localhost".toList := by decide
    simp only [to_apex_site]
    rw [hh, if_pos (Or.inr rfl)]

theorem apex_site_ip_and_localhost_witness :
    to_apex_site [] "127.0.0.1".toList = "https://".toList ++ "127.0.0.1".toList :=
  apex_site_ip_and_localhost [] "127.0.0.1".toList (Or.inl (by decide))

/-- Claim C5 counterexample: triggering /done on a session whose merge
bucket is active but holds zero files does not leave the session state
unchanged: the merge bucket is cleared (the merge session is cancelled). -/
theorem done_zero_files_mutates_state :
    (done_cmd (fun _ => none) [] ⟨none, [], [], some ⟨[], 0⟩⟩).1 ≠
      (⟨none, [], [], some ⟨[], 0⟩⟩ : ChatState) := by decide

/-- Claim C5 (amended): /clean with zero pending items, and /done with no
active merge session, report the error and leave the state unchanged; but
/done with an active merge session holding zero files, or files whose
declared sizes together exceed the cap, reports the error and cancels the merge
session (the merge bucket is cleared), mutating nothing else. -/
theorem precondition_failure_behavior (fetch : Nat → Option (List Char))
    (psl : List (List Char)) (st : ChatState) :
    (st.pendingTexts = [] → st.pendingFiles = [] →
      clean_cmd fetch psl st =
        (st, [.reply "No pending items to clean. Upload text or files first."])) ∧
    (st.merge = none → done_cmd fetch psl st =
      (st, [.reply "No active merge session. Start one with `/merge`."])) ∧
    (∀ mb, st.merge = some mb → mb.files = [] →
      done_cmd fetch psl st =
        ({ st with merge := none }, [.reply "No files were uploaded. Merge cancelled."])) ∧
    (∀ mb, st.merge = some mb → mb.files ≠ [] →
      (mb.files.map FileMeta.file_size).sum > MAX_TOTAL_MERGE_BYTES →
      done_cmd fetch psl st =
        ({ st with merge := none },
         [.reply "Total uploaded files exceed allowed size. Merge cancelled."])) := by
  refine ⟨?_, ?_, ?_, ?_⟩
  · intro ht hf
    unfold clean_cmd
    dsimp only
    rw [if_pos ⟨ht, hf⟩]
  · intro hm
    unfold done_cmd
    rw [hm]
  · intro mb hm hf
    unfold done_cmd
    rw [hm]
    dsimp only
    rw [if_pos hf]
  · intro mb hm hf hsz
    unfold done_cmd
    rw [hm]
    dsimp only
    rw [if_neg hf, if_pos hsz]

theorem precondition_failure_behavior_witness :
    clean_cmd (fun _ => none) [] ⟨none, [], [], none⟩ =
      (⟨none, [], [], none⟩,
        [.reply "No pending items to clean. Upload text or files first."]) ∧
    done_cmd (fun _ => none) [] ⟨none, [], [], none⟩ =
      (⟨none, [], [], none⟩,
        [.reply "No active merge session. Start one with `/merge`."]) ∧
    done_cmd (fun _ => none) [] ⟨some "host", [], [], some ⟨[], 0⟩⟩ =
      (⟨some "host", [], [], none⟩,
        [.reply "No files were uploaded. Merge cancelled."]) ∧
    done_cmd (fun _ => none) []
        ⟨none, [], [], some ⟨[⟨0, [], 26214401⟩], 26214401⟩⟩ =
      (⟨none, [], [], none⟩,
        [.reply "Total uploaded files exceed allowed size. Merge cancelled."]) :=
  ⟨(precondition_failure_behavior _ _ _).1 rfl rfl,
   (precondition_failure_behavior _ _ _).2.1 rfl,
   (precondition_failure_behavior _ _ _).2.2.1 _ rfl rfl,
   (precondition_failure_behavior _ _ _).2.2.2 _ rfl (by decide) (by decide)⟩

/-- Claim C6 counterexample: from the fresh session, one Add-text of a text
of 25 MiB + 1 bytes is accepted, because the pre-add total (zero) is within
the cap; after it the stored pending total exceeds the cap, refuting the
consequence that the total never exceeds the cap after any sequence of
operations. -/
theorem pending_total_can_exceed_cap :
    textsBytes (handle_text initialState
        (List.replicate (MAX_PENDING_TOTAL_BYTES + 1) 'a')).1.pendingTexts >
      MAX_PENDING_TOTAL_BYTES := by
  unfold handle_text initialState
  rw [if_neg (by decide), if_neg (by decide)]
  have hb : utf8Bytes 'a' = 1 := rfl
  simp only [textsBytes, utf8Len, List.nil_append, List.map_cons, List.map_nil,
    List.map_replicate, hb, List.sum_replicate, List.sum_cons, List.sum_nil,
    smul_eq_mul, mul_one]
  omega

theorem handle_text_dropLast_bound (st : ChatState) (txt : List Char)
    (hpre : textsBytes st.pendingTexts.dropLast ≤ MAX_PENDING_TOTAL_BYTES) :
    textsBytes (handle_text st txt).1.pendingTexts.dropLast ≤
      MAX_PENDING_TOTAL_BYTES := by
  unfold handle_text
  by_cases hm : st.merge.isSome
  · rw [if_pos hm]
    exact hpre
  · rw [if_neg hm]
    by_cases hgt : textsBytes st.pendingTexts > MAX_PENDING_TOTAL_BYTES
    · rw [if_pos hgt]
      exact hpre
    · rw [if_neg hgt]
      show textsBytes (st.pendingTexts ++ [txt]).dropLast ≤ _
      rw [List.dropLast_concat]
      omega

theorem handle_text_fold_bound (ts : List (List Char)) (st : ChatState)
    (h : textsBytes st.pendingTexts.dropLast ≤ MAX_PENDING_TOTAL_BYTES) :
    textsBytes ((ts.foldl (fun s t => (handle_text s t).1) st).pendingTexts).dropLast ≤
      MAX_PENDING_TOTAL_BYTES := by
  induction ts generalizing st with
  | nil => exact h
  | cons t ts ih => exact ih _ (handle_text_dropLast_bound _ _ h)

/-- Claim C6 (amended): an Add-text succeeds exactly when the session is
not merging and the pre-add total of stored pending bytes is within the
25 MiB cap, and is rejected with a capacity (or merge-mode) error without
mutation otherwise; consequently after any sequence of Add-text operations
from a fresh session, the total of all stored texts except the newest stays
within the cap, while the full total may exceed the cap by the size of the
last accepted text. -/
theorem pending_text_cap_behavior (st : ChatState) (txt : List Char) :
    (st.merge = none → textsBytes st.pendingTexts ≤ MAX_PENDING_TOTAL_BYTES →
      handle_text st txt =
        ({ st with pendingTexts := st.pendingTexts ++ [txt] },
         .reply "Saved your text. Send `/clean` when you're ready to process all stored items.")) ∧
    (st.merge = none → textsBytes st.pendingTexts > MAX_PENDING_TOTAL_BYTES →
      handle_text st txt =
        (st, .reply "Pending text storage limit reached. Please send `/clean` or `/clear_pending`.")) ∧
    (st.merge ≠ none → (handle_text st txt).1 = st) ∧
    (textsBytes st.pendingTexts.dropLast ≤ MAX_PENDING_TOTAL_BYTES →
      textsBytes (handle_text st txt).1.pendingTexts.dropLast ≤
        MAX_PENDING_TOTAL_BYTES) ∧
    (∀ ts : List (List Char),
      textsBytes ((ts.foldl (fun s t => (handle_text s t).1)
        initialState).pendingTexts).dropLast ≤ MAX_PENDING_TOTAL_BYTES) := by
  refine ⟨?_, ?_, ?_, handle_text_dropLast_bound st txt,
    fun ts => handle_text_fold_bound ts initialState (by decide)⟩
  · intro hm hle
    unfold handle_text
    rw [hm]
    rw [if_neg (by simp)]
    rw [if_neg (by omega)]
  · intro hm hgt
    unfold handle_text
    rw [hm]
    rw [if_neg (by simp)]
    rw [if_pos hgt]
  · intro hm
    have hs : st.merge.isSome = true := Option.isSome_iff_ne_none.mpr hm
    unfold handle_text
    rw [if_pos hs]

theorem pending_text_cap_behavior_witness :
    handle_text ⟨none, [], [], none⟩ "x".toList =
      (⟨none, ["x".toList], [], none⟩,
       .reply "Saved your text. Send `/clean` when you're ready to process all stored items.") ∧
    (handle_text ⟨none, [], [], some ⟨[], 0⟩⟩ "x".toList).1 =
      ⟨none, [], [], some ⟨[], 0⟩⟩ :=
  ⟨(pending_text_cap_behavior _ _).1 rfl (by decide),
   (pending_text_cap_behavior _ _).2.2.1 (by decide)⟩
